import Mathlib

/-!
Shallow embedding of the bank-reconciliation core of `Code.js`
(Conciliaciones): concept normalization, number extraction, the
concept-similarity tiers, the combined date+concept match score, the
per-entry reconciliation state machine, and the batch manual-override
store.  Strings are modelled as `List Char`, JS numbers as `ℚ`, epoch
milliseconds as `ℤ`.  Theorems about the specification's claims follow
the definitions.
-/

-- Batteries marks these rational operations irreducible, which blocks
-- evaluation of concrete rational arithmetic inside `decide`; restore the
-- default reducibility for this file.
attribute [local semireducible] Rat.add Rat.mul Rat.sub Rat.inv

set_option maxRecDepth 4000

abbrev Str : Type := List Char

/-- Character class `\w` of the normalization regex: `[A-Za-z0-9_]`. -/
def isWordChar (c : Char) : Bool := c.isAlphanum || c = '_'

/-- Splits a character list into the maximal runs of characters satisfying
`p`, dropping the separators.  The accumulator holds the current run in
reverse. -/
def runsAux (p : Char → Bool) : Str → Str → List Str
  | [], acc => if acc.isEmpty then [] else [acc.reverse]
  | c :: rest, acc =>
    if p c then runsAux p rest (c :: acc)
    else if acc.isEmpty then runsAux p rest []
    else acc.reverse :: runsAux p rest []

/-- Maximal runs of `\w` characters.  In `normalizeString` every character
that is not `\w` is replaced by a space and whitespace is collapsed, so
word runs are exactly what survives between single spaces; on an already
normalized string this is also the token split `split(/\s+/)` used by the
similarity scorer. -/
def splitWords (s : Str) : List Str := runsAux isWordChar s []

/-- Embedding of `normalizeString`: lowercase, replace `[^\w\s]` by a
space, collapse whitespace runs and trim — i.e. the lowercased word runs
joined by single spaces. -/
def normalizeString (s : Str) : Str :=
  List.intercalate [' '] (splitWords (s.map Char.toLower))

/-- Embedding of `extractNumbers`: all maximal digit runs of the raw
string, each with its leading zeros stripped (`replace(/^0+/, '')`, which
can leave an empty string). -/
def extractNumbers (s : Str) : List Str :=
  (runsAux Char.isDigit s []).map (fun n => n.dropWhile (fun c => c = '0'))

/-- Embedding of JS `String.prototype.includes`: `needle` occurs in `hay`
as a contiguous substring. -/
def containsSub : Str → Str → Bool
  | [], needle => needle.isPrefixOf []
  | hay@(_ :: t), needle => needle.isPrefixOf hay || containsSub t needle

/-- Embedding of JS `String.prototype.endsWith`. -/
def endsWith (hay needle : Str) : Bool := needle.isSuffixOf hay

/-- Inner loop of `levenshteinDistance`: given the previous DP row, the
value diagonally up-left (`diag`), the value to the left in the new row
(`left`) and the remaining characters of the second string, produce the
rest of the new row. -/
def levAux (ca : Char) : Str → List ℕ → ℕ → ℕ → List ℕ
  | [], _, _, _ => []
  | _ :: _, [], _, _ => []
  | cb :: bs, pj :: ps, diag, left =>
    let nj := min (diag + (if ca = cb then 0 else 1)) (min (pj + 1) (left + 1))
    nj :: levAux ca bs ps pj nj

/-- One row update of the Levenshtein DP matrix. -/
def levRow (ca : Char) (b : Str) (prev : List ℕ) : List ℕ :=
  match prev with
  | [] => []
  | p0 :: ps => (p0 + 1) :: levAux ca b ps p0 (p0 + 1)

/-- Embedding of `levenshteinDistance` (unit-cost insert/delete/substitute
edit distance, computed row by row exactly like the source's matrix). -/
def levenshteinDistance (a b : Str) : ℕ :=
  ((a.foldl (fun row ca => levRow ca b row) (List.range (b.length + 1))).getLast?).getD 0

/-- One movement record as the engine sees it after loading: the stable
id, the epoch-millisecond date, the amount, and the precomputed
`_normalized` / `_numbers` fields.  Used for both accounting and bank
movements (the engine reads the same fields of both). -/
structure Movement where
  id : Str
  dateMs : ℤ
  amount : ℚ
  normalized : Str
  numbers : List Str
deriving DecidableEq

/-- The inner-loop body of the partial numeric match of
`calculateConceptSimilarityCached`: for one pair of extracted numbers,
the substring test (0.65) followed — on the very same pair — by the
trailing-match test (0.7). -/
def pairScore (num1 num2 : Str) : Option ℚ :=
  if num1.length ≥ 3 ∧ num2.length ≥ 3 then
    if containsSub num1 num2 || containsSub num2 num1 then some ((65 : ℚ) / 100)
    else if num1.length ≥ 4 ∧ num2.length ≥ 3 then
      if endsWith num1 num2 || endsWith num2 num1 then some ((7 : ℚ) / 10) else none
    else none
  else none

/-- First-match-wins nested loop over the two number lists (entry numbers
outer, record numbers inner). -/
def firstPairScore (numbers1 numbers2 : List Str) : Option ℚ :=
  numbers1.findSome? (fun n1 => numbers2.findSome? (fun n2 => pairScore n1 n2))

/-- Embedding of `calculateConceptSimilarityCached`: the exact /
containment / numeric / token / edit-distance tier chain over the cached
normalized strings and number lists. -/
def calculateConceptSimilarityCached (accMovement bankMovement : Movement) : ℚ :=
  let norm1 := accMovement.normalized
  let norm2 := bankMovement.normalized
  if norm1.isEmpty || norm2.isEmpty then 0
  else if norm1 = norm2 then 1
  else if containsSub norm1 norm2 || containsSub norm2 norm1 then (8 : ℚ) / 10
  else
    let numbers1 := accMovement.numbers
    let numbers2 := bankMovement.numbers
    let numberScore : Option ℚ :=
      if numbers1.length > 0 ∧ numbers2.length > 0 then
        let commonNumbers := numbers1.filter (fun n => n ∈ numbers2)
        if commonNumbers.length > 0 then
          some ((6 : ℚ) / 10 +
            (3 : ℚ) / 10 * commonNumbers.length / (max numbers1.length numbers2.length : ℕ))
        else firstPairScore numbers1 numbers2
      else none
    match numberScore with
    | some s => s
    | none =>
      let tokens1 := splitWords norm1
      let tokens2 := splitWords norm2
      let commonTokens := tokens1.filter (fun t => t ∈ tokens2)
      if commonTokens.length > 0 then
        (3 : ℚ) / 10 +
          (4 : ℚ) / 10 * commonTokens.length / (max tokens1.length tokens2.length : ℕ)
      else if norm1.length < 20 ∧ norm2.length < 20 then
        let distance := levenshteinDistance norm1 norm2
        let maxLength := max norm1.length norm2.length
        max 0 (1 - (distance : ℚ) / (maxLength : ℕ)) * ((1 : ℚ) / 2)
      else 0

/-- The date component of `calculateMatchScore` as a function of the date
difference in (possibly fractional) days. -/
def dateScore (tolerance diffDays : ℚ) : ℚ :=
  if diffDays = 0 then (3 : ℚ) / 10
  else if diffDays ≤ tolerance then (3 : ℚ) / 10 * (1 - diffDays / (tolerance * 2))
  else 0

/-- The source's `Math.abs(acc.date - bank.date) / (1000*60*60*24)`. -/
def dateDiffDays (accMs bankMs : ℤ) : ℚ := |((accMs - bankMs : ℤ) : ℚ)| / 86400000

/-- Embedding of `calculateMatchScore`: weighted sum of the date component
(weight 0.3, folded into `dateScore`) and the concept similarity (weight
0.7). -/
def calculateMatchScore (tolerance : ℚ) (accMovement bankMovement : Movement) : ℚ :=
  dateScore tolerance (dateDiffDays accMovement.dateMs bankMovement.dateMs) +
    (7 : ℚ) / 10 * calculateConceptSimilarityCached accMovement bankMovement

/-- Decimal rendering of an integer, as JS renders an integral number. -/
def intToStr (n : ℤ) : Str :=
  (if n < 0 then ['-'] else []) ++ Nat.toDigits 10 n.natAbs

/-- Fractional digits of a rational in `[0,1)`, most significant first,
stopping when the remainder is zero (bounded by the fuel; exact for the
terminating decimals that amounts are). -/
def fracDigitsAux : ℕ → ℚ → Str
  | 0, _ => []
  | fuel + 1, f =>
    if f = 0 then []
    else
      let f10 := f * 10
      let d := Int.floor f10
      Nat.digitChar d.toNat :: fracDigitsAux fuel (f10 - (d : ℚ))

/-- Rendering of a JS number inside a template literal (`${amount}`):
sign, integer part, and — only when nonzero — a dot and the fractional
digits without trailing zeros. -/
def jsNumToStr (q : ℚ) : Str :=
  let ip := (Int.floor |q|).toNat
  let frDigits := fracDigitsAux 20 (|q| - (Int.floor |q| : ℚ))
  (if q < 0 then ['-'] else []) ++ Nat.toDigits 10 ip ++
    (if frDigits.isEmpty then [] else '.' :: frDigits)

/-- The bank id's concept discriminator:
`concept.substring(0, 20).replace(/[^a-zA-Z0-9]/g, '')` — the
alphanumeric characters among the first 20 characters. -/
def conceptKey (concept : Str) : Str := (concept.take 20).filter Char.isAlphanum

/-- The stable bank record id built in `getBankData`. -/
def bankIdOf (dateMs : ℤ) (concept : Str) (amount : ℚ) : Str :=
  "BANK_".data ++ intToStr dateMs ++ "_".data ++ conceptKey concept ++ "_".data ++
    jsNumToStr amount

/-- The stable accounting entry id built in `getAccountingData`. -/
def accIdOf (dateMs : ℤ) (entry : Str) (amount : ℚ) : Str :=
  "ACC_".data ++ intToStr dateMs ++ "_".data ++ entry ++ "_".data ++ jsNumToStr amount

/-- One filtered source row of the accounting block (columns A–D), with
the date already as epoch milliseconds and the amount already parsed (the
locale-specific numeric parser is an external collaborator). -/
structure AccountingRow where
  dateMs : ℤ
  entryNumber : Str
  concept : Str
  amount : ℚ
deriving DecidableEq

/-- One filtered source row of the bank block (columns F–J). -/
structure BankRow where
  dateMs : ℤ
  valueDateMs : Option ℤ
  concept : Str
  additional : Str
  amount : ℚ
deriving DecidableEq

/-- Row-to-movement mapping of `getAccountingData`. -/
def getAccountingMovement (row : AccountingRow) : Movement :=
  { id := accIdOf row.dateMs row.entryNumber row.amount
    dateMs := row.dateMs
    amount := row.amount
    normalized := normalizeString row.concept
    numbers := extractNumbers row.concept }

/-- The bank row's `fullConcept = concept + ' ' + additional`. -/
def fullConceptOf (row : BankRow) : Str := row.concept ++ [' '] ++ row.additional

/-- Row-to-movement mapping of `getBankData` (normalization and number
extraction run on the combined concept). -/
def getBankMovement (row : BankRow) : Movement :=
  { id := bankIdOf row.dateMs row.concept row.amount
    dateMs := row.dateMs
    amount := row.amount
    normalized := normalizeString (fullConceptOf row)
    numbers := extractNumbers (fullConceptOf row) }

/-- `Math.round(amount * 100) / 100`, the mandatory exact-match key
(JS `Math.round` is floor of the value plus one half). -/
def roundAmount (amount : ℚ) : ℚ := ((Int.floor (amount * 100 + 1 / 2) : ℤ) : ℚ) / 100

/-- One committed match.  `bankIdx` is the position of the bank movement
in the input list; it models the object identity of the JS record whose
`matched` flag is set. -/
structure MatchResult where
  accounting : Movement
  bankIdx : ℕ
  score : ℚ
  manualMatch : Bool
deriving DecidableEq

/-- One conflict: the entry, the top candidates as (bank index, score)
pairs, and the reason string. -/
structure Conflict where
  accounting : Movement
  candidates : List (ℕ × ℚ)
  reason : Str
deriving DecidableEq

/-- Mutable state threaded through the per-entry loop of
`reconcileMovements`: the indices of bank movements whose `matched` flag
has been set, and the three growing output lists. -/
structure RecState where
  consumed : List ℕ
  matched : List MatchResult
  conflicts : List Conflict
  unmatchedAccounting : List Movement
deriving DecidableEq

def initState : RecState := ⟨[], [], [], []⟩

def lowConfidenceReason : Str := "Baja confianza".data

def multipleCandidatesReason : Str := "Múltiples candidatos".data

/-- The `bankById` map lookup: a JS `Map` built with `set` keeps the last
movement stored under an id, so the lookup yields the last index whose
movement carries that id. -/
def bankById (bankData : List Movement) (bid : Str) : Option ℕ :=
  ((bankData.enum.filter (fun p => p.2.id = bid)).getLast?).map Prod.fst

/-- Candidate retrieval: the `bankByAmount` bucket of the entry's rounded
amount (bucket order is input order) filtered to unconsumed movements. -/
def candidatesOf (bankData : List Movement) (consumed : List ℕ) (accMovement : Movement) :
    List (ℕ × Movement) :=
  bankData.enum.filter
    (fun p => roundAmount p.2.amount = roundAmount accMovement.amount ∧ ¬ p.1 ∈ consumed)

/-- Scoring of every candidate. -/
def scoredOf (tolerance : ℚ) (accMovement : Movement) (cands : List (ℕ × Movement)) :
    List (ℕ × ℚ) :=
  cands.map (fun p => (p.1, calculateMatchScore tolerance accMovement p.2))

/-- Descending-by-score order on scored candidates. -/
def scoreGE (x y : ℕ × ℚ) : Prop := y.2 ≤ x.2

instance : DecidableRel scoreGE := fun x y => inferInstanceAs (Decidable (y.2 ≤ x.2))

instance : IsTotal (ℕ × ℚ) scoreGE := ⟨fun a b => le_total b.2 a.2⟩

instance : IsTrans (ℕ × ℚ) scoreGE := ⟨fun _ _ _ hab hbc => le_trans hbc hab⟩

/-- The source's `scoredMatches.sort((a, b) => b.score - a.score)`:
JS `Array.prototype.sort` is stable, and insertion sort is the stable
sort, so this is the same list. -/
def sortScored (l : List (ℕ × ℚ)) : List (ℕ × ℚ) := l.insertionSort scoreGE

/-- The sorted scored candidate list of one entry. -/
def sortedCandidates (tolerance : ℚ) (bankData : List Movement) (consumed : List ℕ)
    (accMovement : Movement) : List (ℕ × ℚ) :=
  sortScored (scoredOf tolerance accMovement (candidatesOf bankData consumed accMovement))

/-- The source's local `scoredMatches[0]` (index and `bestScore`). -/
def bestOf (tolerance : ℚ) (bankData : List Movement) (consumed : List ℕ)
    (accMovement : Movement) : ℕ × ℚ :=
  (sortedCandidates tolerance bankData consumed accMovement).headD (0, 0)

/-- The source's local `scoredMatches[1]?.score || 0` together with its
index. -/
def secondOf (tolerance : ℚ) (bankData : List Movement) (consumed : List ℕ)
    (accMovement : Movement) : ℕ × ℚ :=
  ((sortedCandidates tolerance bankData consumed accMovement).drop 1).headD (0, 0)

/-- The auto-match condition `isAboveThreshold && isClearWinner` of the
decision step. -/
def autoCondOf (tolerance minSimilarityScore : ℚ) (bankData : List Movement)
    (consumed : List ℕ) (accMovement : Movement) : Prop :=
  minSimilarityScore < (bestOf tolerance bankData consumed accMovement).2 ∧
    ((candidatesOf bankData consumed accMovement).length = 1 ∨
      (bestOf tolerance bankData consumed accMovement).2 -
        (secondOf tolerance bankData consumed accMovement).2 > (2 : ℚ) / 10)

instance autoCondDecidable (tolerance minSimilarityScore : ℚ) (bankData : List Movement)
    (consumed : List ℕ) (accMovement : Movement) :
    Decidable (autoCondOf tolerance minSimilarityScore bankData consumed accMovement) := by
  unfold autoCondOf
  infer_instance

/-- Automatic matching of one entry: retrieve and score candidates, sort,
then either auto-match the clear winner above threshold, emit a conflict
with the top five candidates, or mark the entry unmatched when no
candidate shares its rounded amount. -/
def processAuto (tolerance minSimilarityScore : ℚ) (bankData : List Movement)
    (st : RecState) (accMovement : Movement) : RecState :=
  match sortedCandidates tolerance bankData st.consumed accMovement with
  | [] => { st with unmatchedAccounting := st.unmatchedAccounting ++ [accMovement] }
  | best :: rest =>
    let bestScore := best.2
    let secondScore := (rest.headD (0, 0)).2
    if minSimilarityScore < bestScore ∧ (rest.isEmpty ∨ bestScore - secondScore > (2 : ℚ) / 10)
    then
      { st with
        matched := st.matched ++ [⟨accMovement, best.1, bestScore, false⟩]
        consumed := st.consumed ++ [best.1] }
    else
      let reason :=
        if ¬ minSimilarityScore < bestScore then lowConfidenceReason
        else if ¬ rest.isEmpty then multipleCandidatesReason
        else lowConfidenceReason
      { st with conflicts := st.conflicts ++ [⟨accMovement, (best :: rest).take 5, reason⟩] }

/-- The manual-override check of one entry: an override value, resolved
through `bankById`, applies only when the target exists and its `matched`
flag is unset. -/
def manualTarget (bankData : List Movement) (manualMatches : Str → Option Str)
    (consumed : List ℕ) (accMovement : Movement) : Option ℕ :=
  match manualMatches accMovement.id with
  | none => none
  | some manualBankId =>
    match bankById bankData manualBankId with
    | none => none
    | some j => if j ∈ consumed then none else some j

/-- Processing of one accounting movement: an applicable manual override
commits a manual match with score 1.0; otherwise the entry goes through
automatic matching. -/
def processEntry (tolerance minSimilarityScore : ℚ) (bankData : List Movement)
    (manualMatches : Str → Option Str) (st : RecState) (accMovement : Movement) : RecState :=
  match manualTarget bankData manualMatches st.consumed accMovement with
  | some j =>
    { st with
      matched := st.matched ++ [⟨accMovement, j, 1, true⟩]
      consumed := st.consumed ++ [j] }
  | none => processAuto tolerance minSimilarityScore bankData st accMovement

/-- The state after the whole entry loop of `reconcileMovements`. -/
def reconcileState (tolerance minSimilarityScore : ℚ)
    (accountingData bankData : List Movement) (manualMatches : Str → Option Str) : RecState :=
  accountingData.foldl (processEntry tolerance minSimilarityScore bankData manualMatches)
    initState

/-- The ids deleted from the `unmatchedBank` id set during the run: the
ids of the movements whose `matched` flag was set. -/
def consumedIds (bankData : List Movement) (consumed : List ℕ) : List Str :=
  consumed.filterMap (fun j => (bankData.get? j).map Movement.id)

/-- The result record of `reconcileMovements`. -/
structure ReconcileResult where
  matched : List MatchResult
  conflicts : List Conflict
  unmatchedAccounting : List Movement
  unmatchedBank : List Movement
deriving DecidableEq

/-- Embedding of `reconcileMovements`: run the per-entry loop, then
rebuild `unmatchedBank` by filtering the input records through the id set
that survived the deletions. -/
def reconcileMovements (tolerance minSimilarityScore : ℚ)
    (accountingData bankData : List Movement) (manualMatches : Str → Option Str) :
    ReconcileResult :=
  let st := reconcileState tolerance minSimilarityScore accountingData bankData manualMatches
  { matched := st.matched
    conflicts := st.conflicts
    unmatchedAccounting := st.unmatchedAccounting
    unmatchedBank :=
      bankData.filter (fun b => ¬ b.id ∈ consumedIds bankData st.consumed) }

def noOverrides : Str → Option Str := fun _ => none

/-- The run-long invariant behind C4: the bank indices recorded in
`matched` are exactly the consumed indices, without duplicates. -/
def consumedInv (st : RecState) : Prop :=
  st.matched.map MatchResult.bankIdx = st.consumed ∧ st.consumed.Nodup

/-- The multiset of entries classified so far: matched entries, conflict
entries and unmatched entries together. -/
def entriesOf (st : RecState) : List Movement :=
  st.matched.map MatchResult.accounting ++ st.conflicts.map Conflict.accounting ++
    st.unmatchedAccounting

/-- One element of the batch passed to `resolveConflictsBatch`. -/
structure BatchMatch where
  accountingId : Str
  bankId : Str
deriving DecidableEq

/-- The source's validity test `match && match.accountingId && match.bankId`
(empty strings are falsy). -/
def validBatchMatch (m : BatchMatch) : Bool :=
  !m.accountingId.isEmpty && !m.bankId.isEmpty

/-- A JS object used as a string map: association list whose keys are kept
unique, in first-insertion order. -/
abbrev OverrideMap : Type := List (Str × Str)

/-- Property write `obj[k] = v`: overwrite in place when the key exists
(keys of a JS object are unique, so replacing the first occurrence
suffices), append otherwise. -/
def objSet : OverrideMap → Str → Str → OverrideMap
  | [], k, v => [(k, v)]
  | p :: rest, k, v => if p.1 = k then (k, v) :: rest else p :: objSet rest k v

/-- Property read `obj[k]`: the value stored under the (unique) key. -/
def objLookup : OverrideMap → Str → Option Str
  | [], _ => none
  | p :: rest, k => if p.1 = k then some p.2 else objLookup rest k

def objKeys (o : OverrideMap) : List Str := o.map Prod.fst

/-- The `uniqueMatches` object built by `resolveConflictsBatch`:
de-duplication by `accountingId`, last occurrence winning. -/
def uniqueMatchesOf (batch : List BatchMatch) : OverrideMap :=
  batch.foldl
    (fun o m => if validBatchMatch m then objSet o m.accountingId m.bankId else o) []

/-- Merging the de-duplicated pairs into the persisted map
(`manualMatches[accountingId] = uniqueMatches[accountingId]` for every
key). -/
def mergeOverrides (stored news : OverrideMap) : OverrideMap :=
  news.foldl (fun st p => objSet st p.1 p.2) stored

/-- Outcome of `resolveConflictsBatch` together with the two pieces of
ambient state it touches: the persisted override map and whether the
document lock is still held after the call returns. -/
structure BatchResult where
  success : Bool
  count : ℕ
  message : Str
  stored : OverrideMap
  lockHeld : Bool
deriving DecidableEq

def emptyBatchMessage : Str := "No hay conciliaciones para aplicar".data

def noValidBatchMessage : Str := "No hay conciliaciones válidas para aplicar".data

def lockTimeoutMessage : Str :=
  "No se pudo obtener el bloqueo. Otro usuario podría estar aplicando conciliaciones. Intente de nuevo.".data

/-- Embedding of `resolveConflictsBatch`.  `lockAvailable` models the
outcome of `lock.waitLock(30000)` (false = timeout); the `finally` block
releasing the lock is modelled by `lockHeld = false` on the paths where it
was acquired, and the lock was never held on the early-return paths.  The
persisted map is passed in already parsed, so the inner `catch` is
unreachable in the embedding. -/
def resolveConflictsBatch (lockAvailable : Bool) (stored : OverrideMap)
    (batch : List BatchMatch) : BatchResult :=
  if batch.isEmpty then ⟨false, 0, emptyBatchMessage, stored, false⟩
  else
    let uniqueMatches := uniqueMatchesOf batch
    if uniqueMatches.isEmpty then ⟨false, 0, noValidBatchMessage, stored, false⟩
    else if !lockAvailable then ⟨false, 0, lockTimeoutMessage, stored, false⟩
    else ⟨true, uniqueMatches.length, [], mergeOverrides stored uniqueMatches, false⟩

/-! Concrete inputs used by the scenario evaluations below. -/

/-- Scenario A ledger entry: concept `"Cheque 661112"`, amount −150.00. -/
def chequeAcc : Movement :=
  getAccountingMovement ⟨0, "1".data, "Cheque 661112".data, -150⟩

/-- Scenario A sole candidate: concept `"CHQ 1112"`, amount −150.00, same
date. -/
def chequeBank : Movement := getBankMovement ⟨0, none, "CHQ 1112".data, [], -150⟩

/-- Entry whose extracted numbers are `["123", "123"]`. -/
def doubledNumAcc : Movement :=
  getAccountingMovement ⟨0, "1".data, "abc 123 xyz 123".data, 1⟩

/-- Record whose extracted numbers are `["123"]`. -/
def singleNumBank : Movement := getBankMovement ⟨0, none, "def 123".data, [], 1⟩

/-- Entry whose concept normalizes to the empty string. -/
def emptyConceptAcc : Movement := getAccountingMovement ⟨0, "1".data, "...".data, -5⟩

/-- Record whose combined concept normalizes to the empty string. -/
def emptyConceptBank : Movement := getBankMovement ⟨0, none, "!!!".data, [], -5⟩

/-- Record `"PAYMENT ALPHA"`; same id as `twinBank2` (identical date,
amount and first-20-alphanumeric concept key). -/
def twinBank1 : Movement := getBankMovement ⟨0, none, "PAYMENT ALPHA".data, [], 1⟩

/-- Record `"PAYMENTALPHA"`; carries the same derived id as `twinBank1`
but a different normalized concept. -/
def twinBank2 : Movement := getBankMovement ⟨0, none, "PAYMENTALPHA".data, [], 1⟩

/-- Entry matching `twinBank1` exactly. -/
def twinAcc : Movement := getAccountingMovement ⟨0, "1".data, "payment alpha".data, 1⟩

/-- Override map sending `twinAcc` to `twinBank1`. -/
def singleOverride : Str → Option Str :=
  fun i => if i = twinAcc.id then some twinBank1.id else none

/-- Modelled from the spec's words (for comparison with the source's
`conceptKey`): the first 20 alphanumeric characters of the concept. -/
def specFirst20AlnumChars (concept : Str) : Str :=
  (concept.filter Char.isAlphanum).take 20

/-- A concept with 20 digits separated by dots; its first 20 characters
contain only 10 alphanumeric characters. -/
def dottedRow : BankRow :=
  ⟨0, none, "1.2.3.4.5.6.7.8.9.0.1.2.3.4.5.6.7.8.9.0".data, [], 1⟩

/-- Two bank rows equal on date, concept and amount but with different
`additional` and value-date cells. -/
def sameCoreRowA : BankRow := ⟨5, none, "A B".data, "x".data, 2⟩

def sameCoreRowB : BankRow := ⟨5, some 7, "A B".data, "y".data, 2⟩

/-- Batch with a duplicated entry id (last occurrence should win) and an
invalid element (empty entry id). -/
def sampleBatch : List BatchMatch :=
  [⟨"a".data, "x".data⟩, ⟨"a".data, "y".data⟩, ⟨[], "z".data⟩]

def sampleStored : OverrideMap := [("b".data, "w".data)]

/-! Supporting lemmas. -/

theorem containsSub_cons (c : Char) (hay needle : Str)
    (h : containsSub hay needle = true) : containsSub (c :: hay) needle = true := by
  simp [containsSub, h]

theorem containsSub_self (s : Str) : containsSub s s = true := by
  cases s with
  | nil => simp [containsSub]
  | cons c t =>
    simp only [containsSub, Bool.or_eq_true]
    exact Or.inl (List.isPrefixOf_iff_prefix.mpr List.prefix_rfl)

theorem containsSub_append (pre needle : Str) :
    containsSub (pre ++ needle) needle = true := by
  induction pre with
  | nil => simpa using containsSub_self needle
  | cons c pre ih => simpa using containsSub_cons c _ _ ih

theorem containsSub_of_suffix (hay needle : Str) (h : needle.isSuffixOf hay = true) :
    containsSub hay needle = true := by
  obtain ⟨pre, hpre⟩ := List.isSuffixOf_iff_suffix.mp h
  exact hpre ▸ containsSub_append pre needle

/-- The trailing-match tier of the numeric comparison is dead code: a
suffix is always a substring, so the substring tier fires first on the
same pair and `pairScore` can never yield 0.7. -/
theorem pairScore_ne_seven (num1 num2 : Str) : pairScore num1 num2 ≠ some ((7 : ℚ) / 10) := by
  unfold pairScore
  split_ifs with h1 h2 h3 h4
  · intro h
    exact absurd (Option.some.inj h) (by norm_num)
  · exfalso
    apply h2
    have h4 : endsWith num1 num2 = true ∨ endsWith num2 num1 = true := by
      simpa using h4
    have hc : containsSub num1 num2 = true ∨ containsSub num2 num1 = true := by
      rcases h4 with h | h
      · exact Or.inl (containsSub_of_suffix _ _ h)
      · exact Or.inr (containsSub_of_suffix _ _ h)
    simpa using hc
  · simp
  · simp
  · simp

/-! Claim theorems. -/

/-- C1: Scenario A evaluated on the code.  The first qualifying numeric
pair ("661112", "1112") already satisfies the substring test, so the
concept similarity is 0.65 (not the claimed 0.7), the combined score is
0.3 + 0.7 × 0.65 = 0.755 (not 0.79), and the entry is still auto-matched
as the sole candidate. -/
theorem c1_scenarioA_code_eval :
    calculateConceptSimilarityCached chequeAcc chequeBank = 13 / 20
    ∧ calculateMatchScore 3 chequeAcc chequeBank = 151 / 200
    ∧ (reconcileMovements 3 (3 / 10) [chequeAcc] [chequeBank] noOverrides).matched =
        [⟨chequeAcc, 0, 151 / 200, false⟩]
    ∧ pairScore "661112".data "1112".data = some ((65 : ℚ) / 100) := by
  decide

/-- C10: `calculateConceptSimilarityCached` is not commutative — the entry
with extracted numbers ["123", "123"] against the record with ["123"]
scores 0.6 + 0.3 × 2/2 = 0.9, while the swapped direction scores
0.6 + 0.3 × 1/2 = 0.75, because the common-number count filters the first
argument's list (counting its duplicates) by membership in the second. -/
theorem c10_similarity_not_commutative :
    calculateConceptSimilarityCached doubledNumAcc singleNumBank = 9 / 10
    ∧ calculateConceptSimilarityCached singleNumBank doubledNumAcc = 3 / 4
    ∧ calculateConceptSimilarityCached doubledNumAcc singleNumBank ≠
        calculateConceptSimilarityCached singleNumBank doubledNumAcc := by
  decide

/-- C6: the date component is 0.3 at zero difference, degrades linearly to
0.3 × (1 − d / (2·tolerance)) within tolerance — hence exactly 0.15 at
d = tolerance — and is 0 beyond tolerance; and `calculateMatchScore` is
exactly this component plus 0.7 times the concept similarity. -/
theorem c6_date_component (tolerance d : ℚ) (htol : 0 < tolerance) :
    dateScore tolerance 0 = 3 / 10
    ∧ (0 < d → d ≤ tolerance →
        dateScore tolerance d = 3 / 10 * (1 - d / (2 * tolerance)))
    ∧ (tolerance < d → dateScore tolerance d = 0)
    ∧ dateScore tolerance tolerance = 3 / 20
    ∧ (∀ a b : Movement, calculateMatchScore tolerance a b =
        dateScore tolerance (dateDiffDays a.dateMs b.dateMs) +
          7 / 10 * calculateConceptSimilarityCached a b) := by
  refine ⟨by simp [dateScore], ?_, ?_, ?_, fun a b => rfl⟩
  · intro hd0 hdt
    rw [dateScore, if_neg (ne_of_gt hd0), if_pos hdt, mul_comm tolerance 2]
  · intro h
    have hd0 : d ≠ 0 := ne_of_gt (lt_trans htol h)
    rw [dateScore, if_neg hd0, if_neg (not_le.mpr h)]
  · have htne : tolerance ≠ 0 := ne_of_gt htol
    rw [dateScore, if_neg htne, if_pos le_rfl]
    have : tolerance / (tolerance * 2) = 1 / 2 := by
      field_simp
    rw [this]
    norm_num

/-- C6 witness: the date component at tolerance 3 evaluated at differences
0, 2, 7 and 3 days. -/
theorem c6_date_component_witness :
    dateScore 3 0 = 3 / 10
    ∧ dateScore 3 2 = 3 / 10 * (1 - 2 / (2 * 3))
    ∧ dateScore 3 7 = 0
    ∧ dateScore 3 3 = 3 / 20 :=
  ⟨(c6_date_component 3 2 (by norm_num)).1,
   (c6_date_component 3 2 (by norm_num)).2.1 (by norm_num) (by norm_num),
   (c6_date_component 3 7 (by norm_num)).2.2.1 (by norm_num),
   (c6_date_component 3 3 (by norm_num)).2.2.2.1⟩

/-- C7 (amended): equal rounded amount, identical and **nonempty**
normalized concepts and zero date difference give a combined score of
exactly 1.0.  (With both normalized concepts empty the empty-concept tier
returns similarity 0 and the score is 0.3 — see the counterexample.) -/
theorem c7_perfect_score (tolerance : ℚ) (a b : Movement)
    (_hamount : roundAmount a.amount = roundAmount b.amount)
    (hconcept : a.normalized = b.normalized)
    (hne : a.normalized ≠ [])
    (hdate : a.dateMs = b.dateMs) :
    calculateMatchScore tolerance a b = 1 := by
  have hdiff : dateDiffDays a.dateMs b.dateMs = 0 := by
    simp [dateDiffDays, hdate]
  have hsim : calculateConceptSimilarityCached a b = 1 := by
    unfold calculateConceptSimilarityCached
    rw [← hconcept]
    simp [List.isEmpty_iff, hne]
  rw [calculateMatchScore, hdiff, hsim, dateScore, if_pos rfl]
  norm_num

/-- C7 witness: a concrete pair with equal amounts, identical nonempty
normalized concepts and equal dates scores exactly 1. -/
theorem c7_perfect_score_witness : calculateMatchScore 3 twinAcc twinBank1 = 1 :=
  c7_perfect_score 3 twinAcc twinBank1 (by decide) (by decide) (by decide) (by decide)

/-- C7 counterexample: two movements with equal rounded amounts, identical
(empty) normalized concepts and zero date difference whose combined score
is 0.3, not 1. -/
theorem c7_counterexample :
    roundAmount emptyConceptAcc.amount = roundAmount emptyConceptBank.amount
    ∧ emptyConceptAcc.normalized = emptyConceptBank.normalized
    ∧ emptyConceptAcc.dateMs = emptyConceptBank.dateMs
    ∧ calculateMatchScore 3 emptyConceptAcc emptyConceptBank = 3 / 10
    ∧ calculateMatchScore 3 emptyConceptAcc emptyConceptBank ≠ 1 := by
  decide


/-- Unfolding of the automatic step once the sorted candidate list is
known to be nonempty. -/
theorem processAuto_cons (tolerance minSimilarityScore : ℚ) (bankData : List Movement)
    (st : RecState) (accMovement : Movement) (b : ℕ × ℚ) (rest : List (ℕ × ℚ))
    (h : sortedCandidates tolerance bankData st.consumed accMovement = b :: rest) :
    processAuto tolerance minSimilarityScore bankData st accMovement =
      if minSimilarityScore < b.2 ∧ (rest.isEmpty ∨ b.2 - (rest.headD (0, 0)).2 > (2 : ℚ) / 10)
      then
        { st with
          matched := st.matched ++ [⟨accMovement, b.1, b.2, false⟩]
          consumed := st.consumed ++ [b.1] }
      else
        { st with
          conflicts := st.conflicts ++
            [⟨accMovement, (b :: rest).take 5,
              if ¬ minSimilarityScore < b.2 then lowConfidenceReason
              else if ¬ rest.isEmpty then multipleCandidatesReason
              else lowConfidenceReason⟩] } := by
  unfold processAuto
  rw [h]

/-- C5: an override whose target record exists and is unconsumed commits a
manual match with score exactly 1.0 (regardless of concept or date
similarity) and consumes the record; a missing or already-consumed target
silently falls through to automatic matching. -/
theorem c5_manual_override (tolerance minSimilarityScore : ℚ) (bankData : List Movement)
    (manualMatches : Str → Option Str) (st : RecState) (accMovement : Movement) (bid : Str)
    (hov : manualMatches accMovement.id = some bid) :
    (∀ j, bankById bankData bid = some j → ¬ j ∈ st.consumed →
        processEntry tolerance minSimilarityScore bankData manualMatches st accMovement =
          { st with
            matched := st.matched ++ [⟨accMovement, j, 1, true⟩]
            consumed := st.consumed ++ [j] })
    ∧ (bankById bankData bid = none →
        processEntry tolerance minSimilarityScore bankData manualMatches st accMovement =
          processAuto tolerance minSimilarityScore bankData st accMovement)
    ∧ (∀ j, bankById bankData bid = some j → j ∈ st.consumed →
        processEntry tolerance minSimilarityScore bankData manualMatches st accMovement =
          processAuto tolerance minSimilarityScore bankData st accMovement) := by
  refine ⟨?_, ?_, ?_⟩
  · intro j hj hmem
    simp [processEntry, manualTarget, hov, hj, hmem]
  · intro h0
    simp [processEntry, manualTarget, hov, h0]
  · intro j hj hmem
    simp [processEntry, manualTarget, hov, hj, hmem]

/-- C5 witness: a concrete override with an unconsumed target record is
committed as a manual match with score 1. -/
theorem c5_manual_override_witness :
    processEntry 3 (3 / 10) [twinBank1] singleOverride initState twinAcc =
      ⟨[0], [⟨twinAcc, 0, 1, true⟩], [], []⟩ := by
  have h := (c5_manual_override 3 (3 / 10) [twinBank1] singleOverride initState twinAcc
    twinBank1.id (by decide)).1 0 (by decide) (by decide)
  exact h.trans (by decide)

/-- C2: an entry with at least one unconsumed equal-rounded-amount
candidate is auto-matched to the top-scored candidate exactly when the
best score exceeds the threshold and it is a clear winner (sole candidate
or margin above 0.2); otherwise a conflict is emitted whose reason is
LowConfidence exactly when the best score fails the threshold and
MultipleCandidates otherwise, carrying at most five candidates sorted by
descending score. -/
theorem c2_decision_rule (tolerance minSimilarityScore : ℚ) (bankData : List Movement)
    (st : RecState) (accMovement : Movement)
    (hne : candidatesOf bankData st.consumed accMovement ≠ []) :
    (∀ p ∈ scoredOf tolerance accMovement (candidatesOf bankData st.consumed accMovement),
        p.2 ≤ (bestOf tolerance bankData st.consumed accMovement).2)
    ∧ List.Sorted scoreGE
        ((sortedCandidates tolerance bankData st.consumed accMovement).take 5)
    ∧ ((sortedCandidates tolerance bankData st.consumed accMovement).take 5).length ≤ 5
    ∧ (autoCondOf tolerance minSimilarityScore bankData st.consumed accMovement →
        processAuto tolerance minSimilarityScore bankData st accMovement =
          { st with
            matched := st.matched ++
              [⟨accMovement, (bestOf tolerance bankData st.consumed accMovement).1,
                (bestOf tolerance bankData st.consumed accMovement).2, false⟩]
            consumed := st.consumed ++
              [(bestOf tolerance bankData st.consumed accMovement).1] })
    ∧ (¬ autoCondOf tolerance minSimilarityScore bankData st.consumed accMovement →
        processAuto tolerance minSimilarityScore bankData st accMovement =
          { st with
            conflicts := st.conflicts ++
              [⟨accMovement,
                (sortedCandidates tolerance bankData st.consumed accMovement).take 5,
                if minSimilarityScore < (bestOf tolerance bankData st.consumed accMovement).2
                then multipleCandidatesReason
                else lowConfidenceReason⟩] }) := by
  have hperm : (sortedCandidates tolerance bankData st.consumed accMovement).Perm
      (scoredOf tolerance accMovement (candidatesOf bankData st.consumed accMovement)) :=
    List.perm_insertionSort _ _
  have hsorted : List.Sorted scoreGE
      (sortedCandidates tolerance bankData st.consumed accMovement) :=
    List.sorted_insertionSort _ _
  have hlen : (sortedCandidates tolerance bankData st.consumed accMovement).length =
      (candidatesOf bankData st.consumed accMovement).length := by
    rw [hperm.length_eq]
    simp [scoredOf]
  have hsne : sortedCandidates tolerance bankData st.consumed accMovement ≠ [] := by
    intro h
    apply hne
    rw [h] at hlen
    exact (List.length_eq_zero.mp hlen.symm)
  obtain ⟨b, rest, hbr⟩ :
      ∃ b rest, sortedCandidates tolerance bankData st.consumed accMovement = b :: rest := by
    cases h : sortedCandidates tolerance bankData st.consumed accMovement with
    | nil => exact absurd h hsne
    | cons b rest => exact ⟨b, rest, rfl⟩
  have hbest : bestOf tolerance bankData st.consumed accMovement = b := by
    rw [bestOf, hbr]
    rfl
  have hsecond : secondOf tolerance bankData st.consumed accMovement = rest.headD (0, 0) := by
    rw [secondOf, hbr]
    rfl
  have hlen2 : (candidatesOf bankData st.consumed accMovement).length = rest.length + 1 := by
    rw [← hlen, hbr]
    simp
  have hcount : (candidatesOf bankData st.consumed accMovement).length = 1 ↔
      rest.isEmpty = true := by
    rw [hlen2]
    cases rest <;> simp
  refine ⟨?_, ?_, ?_, ?_, ?_⟩
  · intro p hp
    have hp2 : p ∈ sortedCandidates tolerance bankData st.consumed accMovement :=
      hperm.mem_iff.mpr hp
    rw [hbr] at hp2
    rw [hbest]
    rcases List.mem_cons.mp hp2 with h | h
    · rw [h]
    · have hcons := List.sorted_cons.mp (hbr ▸ hsorted)
      exact hcons.1 p h
  · exact List.Pairwise.sublist (List.take_sublist 5 _) hsorted
  · rw [List.length_take]
    exact min_le_left _ _
  · intro hauto
    unfold autoCondOf at hauto
    rw [hbest, hsecond, hcount] at hauto
    rw [processAuto_cons tolerance minSimilarityScore bankData st accMovement b rest hbr,
      if_pos hauto, hbest]
  · intro hnauto
    unfold autoCondOf at hnauto
    rw [hbest, hsecond, hcount] at hnauto
    rw [processAuto_cons tolerance minSimilarityScore bankData st accMovement b rest hbr,
      if_neg hnauto, hbest, hbr]
    by_cases habove : minSimilarityScore < b.2
    · have hcases := not_and_or.mp hnauto
      rcases hcases with h | h
      · exact absurd habove h
      · have hrest : ¬ rest.isEmpty = true := fun hr => h (Or.inl hr)
        rw [if_neg (not_not_intro habove), if_pos hrest, if_pos habove]
    · rw [if_pos habove, if_neg habove]

/-- C2 witness: the sole-candidate Scenario A entry is auto-matched to its
top candidate. -/
theorem c2_decision_rule_witness :
    processAuto 3 (3 / 10) [chequeBank] initState chequeAcc =
      ⟨[0], [⟨chequeAcc, 0, 151 / 200, false⟩], [], []⟩ := by
  have h := (c2_decision_rule 3 (3 / 10) [chequeBank] initState chequeAcc
    (by decide)).2.2.2.1 (by decide)
  exact h.trans (by decide)

/-- An applicable manual-override target is never an already-consumed
record. -/
theorem manualTarget_not_consumed (bankData : List Movement) (ov : Str → Option Str)
    (consumed : List ℕ) (accMovement : Movement) {j : ℕ}
    (h : manualTarget bankData ov consumed accMovement = some j) : ¬ j ∈ consumed := by
  unfold manualTarget at h
  rcases hov : ov accMovement.id with _ | bid
  · simp [hov] at h
  · rcases hbid : bankById bankData bid with _ | j0
    · simp [hov, hbid] at h
    · simp only [hov, hbid] at h
      by_cases hmem : j0 ∈ consumed
      · simp [hmem] at h
      · simp only [if_neg hmem, Option.some.injEq] at h
        exact h ▸ hmem

/-- Every sorted scored candidate of an entry is unconsumed (the candidate
filter removed consumed records). -/
theorem mem_sortedCandidates_not_consumed (tolerance : ℚ) (bankData : List Movement)
    (consumed : List ℕ) (accMovement : Movement) {p : ℕ × ℚ}
    (hp : p ∈ sortedCandidates tolerance bankData consumed accMovement) :
    ¬ p.1 ∈ consumed := by
  have hp2 : p ∈ scoredOf tolerance accMovement (candidatesOf bankData consumed accMovement) :=
    (List.perm_insertionSort _ _).mem_iff.mp hp
  simp only [scoredOf, List.mem_map] at hp2
  obtain ⟨q, hq, hpq⟩ := hp2
  rcases List.mem_filter.mp hq with ⟨_, hpred⟩
  simp only [decide_eq_true_eq] at hpred
  rw [← hpq]
  exact hpred.2


/-- Unfolding of `processEntry` when a manual override applies. -/
theorem processEntry_manual (tolerance minSimilarityScore : ℚ) (bankData : List Movement)
    (manualMatches : Str → Option Str) (st : RecState) (accMovement : Movement) (j : ℕ)
    (h : manualTarget bankData manualMatches st.consumed accMovement = some j) :
    processEntry tolerance minSimilarityScore bankData manualMatches st accMovement =
      { st with
        matched := st.matched ++ [⟨accMovement, j, 1, true⟩]
        consumed := st.consumed ++ [j] } := by
  unfold processEntry
  rw [h]

/-- Unfolding of `processEntry` when no manual override applies. -/
theorem processEntry_noManual (tolerance minSimilarityScore : ℚ) (bankData : List Movement)
    (manualMatches : Str → Option Str) (st : RecState) (accMovement : Movement)
    (h : manualTarget bankData manualMatches st.consumed accMovement = none) :
    processEntry tolerance minSimilarityScore bankData manualMatches st accMovement =
      processAuto tolerance minSimilarityScore bankData st accMovement := by
  unfold processEntry
  rw [h]

/-- Unfolding of the automatic step when no candidate shares the rounded
amount. -/
theorem processAuto_nil (tolerance minSimilarityScore : ℚ) (bankData : List Movement)
    (st : RecState) (accMovement : Movement)
    (h : sortedCandidates tolerance bankData st.consumed accMovement = []) :
    processAuto tolerance minSimilarityScore bankData st accMovement =
      { st with unmatchedAccounting := st.unmatchedAccounting ++ [accMovement] } := by
  unfold processAuto
  rw [h]

theorem processEntry_consumedInv (tolerance minSimilarityScore : ℚ)
    (bankData : List Movement) (manualMatches : Str → Option Str) (st : RecState)
    (accMovement : Movement) (h : consumedInv st) :
    consumedInv (processEntry tolerance minSimilarityScore bankData manualMatches st
      accMovement) := by
  cases hmt : manualTarget bankData manualMatches st.consumed accMovement with
  | some j =>
    rw [processEntry_manual tolerance minSimilarityScore bankData manualMatches st
      accMovement j hmt]
    have hnotmem := manualTarget_not_consumed bankData manualMatches st.consumed
      accMovement hmt
    exact ⟨by simp [h.1], by simp [List.nodup_append, h.2, hnotmem]⟩
  | none =>
    rw [processEntry_noManual tolerance minSimilarityScore bankData manualMatches st
      accMovement hmt]
    cases hbr : sortedCandidates tolerance bankData st.consumed accMovement with
    | nil =>
      rw [processAuto_nil tolerance minSimilarityScore bankData st accMovement hbr]
      exact ⟨h.1, h.2⟩
    | cons b rest =>
      rw [processAuto_cons tolerance minSimilarityScore bankData st accMovement b rest hbr]
      by_cases hcond : minSimilarityScore < b.2 ∧
          (rest.isEmpty = true ∨ b.2 - (rest.headD (0, 0)).2 > (2 : ℚ) / 10)
      · rw [if_pos hcond]
        have hb : b ∈ sortedCandidates tolerance bankData st.consumed accMovement := by
          rw [hbr]
          exact List.mem_cons_self _ _
        have hnot := mem_sortedCandidates_not_consumed tolerance bankData st.consumed
          accMovement hb
        exact ⟨by simp [h.1], by simp [List.nodup_append, h.2, hnot]⟩
      · rw [if_neg hcond]
        exact ⟨h.1, h.2⟩

theorem foldl_consumedInv (tolerance minSimilarityScore : ℚ) (bankData : List Movement)
    (manualMatches : Str → Option Str) (l : List Movement) (st : RecState)
    (h : consumedInv st) :
    consumedInv (l.foldl (processEntry tolerance minSimilarityScore bankData manualMatches)
      st) := by
  induction l generalizing st with
  | nil => exact h
  | cons a l ih =>
    exact ih _ (processEntry_consumedInv tolerance minSimilarityScore bankData
      manualMatches st a h)

/-- C4: across one whole run every bank record is consumed by at most one
entry — the bank indices of the committed matches are exactly the consumed
indices and carry no duplicate, so no record appears in two match
results. -/
theorem c4_no_double_consumption (tolerance minSimilarityScore : ℚ)
    (accountingData bankData : List Movement) (manualMatches : Str → Option Str) :
    ((reconcileMovements tolerance minSimilarityScore accountingData bankData
        manualMatches).matched.map MatchResult.bankIdx).Nodup
    ∧ (reconcileState tolerance minSimilarityScore accountingData bankData
        manualMatches).matched.map MatchResult.bankIdx =
      (reconcileState tolerance minSimilarityScore accountingData bankData
        manualMatches).consumed
    ∧ (reconcileState tolerance minSimilarityScore accountingData bankData
        manualMatches).consumed.Nodup := by
  have h := foldl_consumedInv tolerance minSimilarityScore bankData manualMatches
    accountingData initState ⟨rfl, List.nodup_nil⟩
  refine ⟨?_, h.1, h.2⟩
  have h1 : (reconcileMovements tolerance minSimilarityScore accountingData bankData
      manualMatches).matched.map MatchResult.bankIdx =
      (accountingData.foldl (processEntry tolerance minSimilarityScore bankData
        manualMatches) initState).consumed := h.1
  rw [h1]
  exact h.2


theorem processEntry_entriesOf (tolerance minSimilarityScore : ℚ)
    (bankData : List Movement) (manualMatches : Str → Option Str) (st : RecState)
    (accMovement : Movement) :
    (entriesOf (processEntry tolerance minSimilarityScore bankData manualMatches st
      accMovement)).Perm (entriesOf st ++ [accMovement]) := by
  cases hmt : manualTarget bankData manualMatches st.consumed accMovement with
  | some j =>
    rw [processEntry_manual tolerance minSimilarityScore bankData manualMatches st
      accMovement j hmt]
    refine List.perm_iff_count.mpr fun x => ?_
    simp [entriesOf, List.count_append, List.count_cons]
    omega
  | none =>
    rw [processEntry_noManual tolerance minSimilarityScore bankData manualMatches st
      accMovement hmt]
    cases hbr : sortedCandidates tolerance bankData st.consumed accMovement with
    | nil =>
      rw [processAuto_nil tolerance minSimilarityScore bankData st accMovement hbr]
      refine List.perm_iff_count.mpr fun x => ?_
      simp [entriesOf, List.count_append, List.count_cons]
    | cons b rest =>
      rw [processAuto_cons tolerance minSimilarityScore bankData st accMovement b rest hbr]
      by_cases hcond : minSimilarityScore < b.2 ∧
          (rest.isEmpty = true ∨ b.2 - (rest.headD (0, 0)).2 > (2 : ℚ) / 10)
      · rw [if_pos hcond]
        refine List.perm_iff_count.mpr fun x => ?_
        simp [entriesOf, List.count_append, List.count_cons]
        omega
      · rw [if_neg hcond]
        refine List.perm_iff_count.mpr fun x => ?_
        simp [entriesOf, List.count_append, List.count_cons]

theorem foldl_entriesOf (tolerance minSimilarityScore : ℚ) (bankData : List Movement)
    (manualMatches : Str → Option Str) (l : List Movement) (st : RecState) :
    (entriesOf (l.foldl (processEntry tolerance minSimilarityScore bankData manualMatches)
      st)).Perm (entriesOf st ++ l) := by
  induction l generalizing st with
  | nil => simp
  | cons a l ih =>
    refine (ih (processEntry tolerance minSimilarityScore bankData manualMatches st
      a)).trans ?_
    refine ((processEntry_entriesOf tolerance minSimilarityScore bankData manualMatches st
      a).append_right l).trans ?_
    have hassoc : (entriesOf st ++ [a]) ++ l = entriesOf st ++ a :: l := by simp
    rw [hassoc]

/-- C3 (amended): every entry lands in exactly one of matched / conflicts
/ unmatched entries (their concatenation is a permutation of the input,
hence pairwise disjoint when the input entries are distinct), and
`unmatchedBank` is exactly the input records whose id is not the id of any
consumed record — which, when record ids are pairwise distinct, is exactly
the records never marked consumed.  (With duplicate record ids a record
never marked consumed can disappear from `unmatchedBank`; see the
counterexample.) -/
theorem c3_partition (tolerance minSimilarityScore : ℚ)
    (accountingData bankData : List Movement) (manualMatches : Str → Option Str) :
    ((reconcileMovements tolerance minSimilarityScore accountingData bankData
          manualMatches).matched.map MatchResult.accounting ++
      (reconcileMovements tolerance minSimilarityScore accountingData bankData
          manualMatches).conflicts.map Conflict.accounting ++
      (reconcileMovements tolerance minSimilarityScore accountingData bankData
          manualMatches).unmatchedAccounting).Perm accountingData
    ∧ (reconcileMovements tolerance minSimilarityScore accountingData bankData
          manualMatches).unmatchedBank =
        bankData.filter (fun b => ¬ b.id ∈ consumedIds bankData
          (reconcileState tolerance minSimilarityScore accountingData bankData
            manualMatches).consumed)
    ∧ (accountingData.Nodup →
        ((reconcileMovements tolerance minSimilarityScore accountingData bankData
            manualMatches).matched.map MatchResult.accounting).Disjoint
          ((reconcileMovements tolerance minSimilarityScore accountingData bankData
            manualMatches).conflicts.map Conflict.accounting)
        ∧ ((reconcileMovements tolerance minSimilarityScore accountingData bankData
            manualMatches).matched.map MatchResult.accounting).Disjoint
          (reconcileMovements tolerance minSimilarityScore accountingData bankData
            manualMatches).unmatchedAccounting
        ∧ ((reconcileMovements tolerance minSimilarityScore accountingData bankData
            manualMatches).conflicts.map Conflict.accounting).Disjoint
          (reconcileMovements tolerance minSimilarityScore accountingData bankData
            manualMatches).unmatchedAccounting)
    ∧ ((bankData.map Movement.id).Nodup → ∀ i b, bankData[i]? = some b →
        (b ∈ (reconcileMovements tolerance minSimilarityScore accountingData bankData
            manualMatches).unmatchedBank ↔
          ¬ i ∈ (reconcileState tolerance minSimilarityScore accountingData bankData
            manualMatches).consumed)) := by
  have hperm0 := foldl_entriesOf tolerance minSimilarityScore bankData manualMatches
    accountingData initState
  have hperm : ((reconcileMovements tolerance minSimilarityScore accountingData bankData
        manualMatches).matched.map MatchResult.accounting ++
      (reconcileMovements tolerance minSimilarityScore accountingData bankData
        manualMatches).conflicts.map Conflict.accounting ++
      (reconcileMovements tolerance minSimilarityScore accountingData bankData
        manualMatches).unmatchedAccounting).Perm accountingData := by
    simpa [entriesOf, initState, reconcileMovements, reconcileState] using hperm0
  have hbankeq : (reconcileMovements tolerance minSimilarityScore accountingData bankData
      manualMatches).unmatchedBank =
      bankData.filter (fun b => ¬ b.id ∈ consumedIds bankData
        (reconcileState tolerance minSimilarityScore accountingData bankData
          manualMatches).consumed) := rfl
  refine ⟨hperm, hbankeq, ?_, ?_⟩
  · intro hnd
    have hnd2 := (hperm.nodup_iff).mpr hnd
    have h1 := List.nodup_append.mp hnd2
    have h2 := List.nodup_append.mp h1.1
    refine ⟨h2.2.2, ?_, ?_⟩
    · intro x hx hxc
      exact h1.2.2 (List.mem_append.mpr (Or.inl hx)) hxc
    · intro x hx hxc
      exact h1.2.2 (List.mem_append.mpr (Or.inr hx)) hxc
  · intro hids i b hget
    have hmemb : b ∈ bankData := List.getElem?_mem hget
    rw [hbankeq]
    constructor
    · intro hmem hic
      have hin : b.id ∈ consumedIds bankData
          (reconcileState tolerance minSimilarityScore accountingData bankData
            manualMatches).consumed :=
        List.mem_filterMap.mpr ⟨i, hic, by simp [hget]⟩
      rcases List.mem_filter.mp hmem with ⟨_, hp⟩
      simp only [decide_eq_true_eq] at hp
      exact hp hin
    · intro hni
      refine List.mem_filter.mpr ⟨hmemb, ?_⟩
      simp only [decide_eq_true_eq]
      intro hin
      obtain ⟨j, hj, hjb⟩ := List.mem_filterMap.mp hin
      obtain ⟨c, hc, hcid⟩ : ∃ c, bankData[j]? = some c ∧ c.id = b.id := by
        rw [List.get?_eq_getElem?] at hjb
        cases hg : bankData[j]? with
        | none =>
          rw [hg] at hjb
          simp at hjb
        | some c =>
          rw [hg] at hjb
          simp at hjb
          exact ⟨c, rfl, hjb⟩
      have hmapi : (bankData.map Movement.id)[i]? = some b.id := by
        rw [List.getElem?_map, hget]
        rfl
      have hmapj : (bankData.map Movement.id)[j]? = some b.id := by
        rw [List.getElem?_map, hc]
        simp [hcid]
      have hlt : i < (bankData.map Movement.id).length := by
        rcases List.getElem?_eq_some_iff.mp hmapi with ⟨hl, _⟩
        exact hl
      have hij : i = j := List.getElem?_inj hlt hids (hmapi.trans hmapj.symm)
      exact hni (hij ▸ hj)

/-- C3 witness: with a single entry matched to a single record, the three
entry partitions concatenate to the entry list, and the sole record is
absent from `unmatchedBank` exactly because its index was consumed. -/
theorem c3_partition_witness :
    ((reconcileMovements 3 (3 / 10) [chequeAcc] [chequeBank] noOverrides).matched.map
        MatchResult.accounting ++
      (reconcileMovements 3 (3 / 10) [chequeAcc] [chequeBank] noOverrides).conflicts.map
        Conflict.accounting ++
      (reconcileMovements 3 (3 / 10) [chequeAcc] [chequeBank]
        noOverrides).unmatchedAccounting).Perm [chequeAcc]
    ∧ (chequeBank ∈ (reconcileMovements 3 (3 / 10) [chequeAcc] [chequeBank]
        noOverrides).unmatchedBank ↔
        ¬ 0 ∈ (reconcileState 3 (3 / 10) [chequeAcc] [chequeBank] noOverrides).consumed) :=
  ⟨(c3_partition 3 (3 / 10) [chequeAcc] [chequeBank] noOverrides).1,
   (c3_partition 3 (3 / 10) [chequeAcc] [chequeBank] noOverrides).2.2.2 (by decide) 0
     chequeBank (by decide)⟩

/-- C3 counterexample: with two records sharing one derived id, the second
record is never marked consumed yet is missing from `unmatchedBank`, so
`unmatchedBank` is not the set of records never marked consumed. -/
theorem c3_counterexample :
    twinBank2 ∈ ([twinBank1, twinBank2] : List Movement)
    ∧ ¬ 1 ∈ (reconcileState 3 (3 / 10) [twinAcc] [twinBank1, twinBank2]
        noOverrides).consumed
    ∧ twinBank2 ∉ (reconcileMovements 3 (3 / 10) [twinAcc] [twinBank1, twinBank2]
        noOverrides).unmatchedBank := by
  decide

/-- C8 counterexample: for a concept whose first 20 characters contain
only 10 alphanumerics, the derived id differs from the id built from the
first 20 alphanumeric characters of the concept. -/
theorem c8_counterexample :
    (getBankMovement dottedRow).id ≠
      "BANK_".data ++ intToStr dottedRow.dateMs ++ "_".data ++
        specFirst20AlnumChars dottedRow.concept ++ "_".data ++
        jsNumToStr dottedRow.amount := by
  decide

/-- C8 (amended): the derived bank record id is "BANK_" + epoch
milliseconds + "_" + the alphanumeric characters among the first 20
characters of the concept + "_" + the rendered amount; and the id depends
only on the date, concept and amount cells, so recomputing it from the
same unchanged row always reproduces the identical id string. -/
theorem c8_id_scheme (r r2 : BankRow) :
    (getBankMovement r).id =
      "BANK_".data ++ intToStr r.dateMs ++ "_".data ++
        (r.concept.take 20).filter Char.isAlphanum ++ "_".data ++ jsNumToStr r.amount
    ∧ (r.dateMs = r2.dateMs → r.concept = r2.concept → r.amount = r2.amount →
        (getBankMovement r).id = (getBankMovement r2).id) := by
  refine ⟨rfl, ?_⟩
  intro h1 h2 h3
  simp [getBankMovement, bankIdOf, conceptKey, h1, h2, h3]

/-- C8 witness: two rows equal on date, concept and amount but different
elsewhere produce the identical id, of the stated shape. -/
theorem c8_id_scheme_witness :
    (getBankMovement sameCoreRowA).id =
      "BANK_".data ++ intToStr sameCoreRowA.dateMs ++ "_".data ++
        (sameCoreRowA.concept.take 20).filter Char.isAlphanum ++ "_".data ++
        jsNumToStr sameCoreRowA.amount
    ∧ (getBankMovement sameCoreRowA).id = (getBankMovement sameCoreRowB).id :=
  ⟨(c8_id_scheme sameCoreRowA sameCoreRowB).1,
   (c8_id_scheme sameCoreRowA sameCoreRowB).2 rfl rfl rfl⟩

/-! Override-store lemmas for C9. -/

theorem objLookup_objSet_self (o : OverrideMap) (k v : Str) :
    objLookup (objSet o k v) k = some v := by
  induction o with
  | nil => simp [objSet, objLookup]
  | cons p rest ih =>
    by_cases hp : p.1 = k
    · simp [objSet, hp, objLookup]
    · simp [objSet, hp, objLookup, ih]

theorem objLookup_objSet_ne (o : OverrideMap) (k v k2 : Str) (hne : k2 ≠ k) :
    objLookup (objSet o k v) k2 = objLookup o k2 := by
  have hkk2 : ¬ k = k2 := fun h => hne (Eq.symm h)
  induction o with
  | nil => simp [objSet, objLookup, hkk2]
  | cons p rest ih =>
    by_cases hp : p.1 = k
    · have hp2 : ¬ p.1 = k2 := by
        rw [hp]
        exact hkk2
      simp [objSet, hp, objLookup, hkk2, hp2, hne]
    · by_cases hpk2 : p.1 = k2
      · simp [objSet, hp, objLookup, hpk2, hne]
      · simp [objSet, hp, objLookup, hpk2, hne, ih]

theorem uniqueMatchesOf_append (batch : List BatchMatch) (m : BatchMatch) :
    uniqueMatchesOf (batch ++ [m]) =
      if validBatchMatch m then objSet (uniqueMatchesOf batch) m.accountingId m.bankId
      else uniqueMatchesOf batch := by
  unfold uniqueMatchesOf
  rw [List.foldl_append]
  rfl

/-- De-duplication keeps the last occurrence: looking up a key in the
`uniqueMatches` object yields the bank id of the last valid input pair
carrying that entry id. -/
theorem objLookup_uniqueMatchesOf (batch : List BatchMatch) (k : Str) :
    objLookup (uniqueMatchesOf batch) k =
      ((batch.filter (fun m => validBatchMatch m ∧ m.accountingId = k)).getLast?).map
        BatchMatch.bankId := by
  induction batch using List.reverseRecOn with
  | nil => simp [uniqueMatchesOf, objLookup]
  | append_singleton bs m ih =>
    rw [uniqueMatchesOf_append]
    by_cases hv : validBatchMatch m = true
    · by_cases hk : m.accountingId = k
      · rw [if_pos hv]
        rw [List.filter_append]
        have hsome : objLookup (objSet (uniqueMatchesOf bs) m.accountingId m.bankId) k =
            some m.bankId := by
          rw [hk, objLookup_objSet_self]
        rw [hsome]
        simp [hv, hk, List.getLast?_concat]
      · rw [if_pos hv,
          objLookup_objSet_ne _ _ _ _ (fun h => hk (Eq.symm h)), ih,
          List.filter_append]
        simp [hk]
    · rw [if_neg hv, ih, List.filter_append]
      simp [hv]

theorem objKeys_objSet (o : OverrideMap) (k v : Str) :
    objKeys (objSet o k v) =
      if k ∈ objKeys o then objKeys o else objKeys o ++ [k] := by
  induction o with
  | nil => simp [objSet, objKeys]
  | cons p rest ih =>
    by_cases hp : p.1 = k
    · simp [objSet, hp, objKeys]
    · have hne : ¬ k = p.1 := fun h => hp (Eq.symm h)
      simp only [objSet, if_neg hp, objKeys, List.map_cons]
      have ih2 : List.map Prod.fst (objSet rest k v) =
          if k ∈ List.map Prod.fst rest then List.map Prod.fst rest
          else List.map Prod.fst rest ++ [k] := ih
      rw [ih2]
      by_cases hk : k ∈ List.map Prod.fst rest
      · rw [if_pos hk, if_pos (List.mem_cons.mpr (Or.inr hk))]
      · rw [if_neg hk, if_neg (fun h => Or.elim (List.mem_cons.mp h) hne hk)]
        rfl

theorem objKeys_nodup_objSet (o : OverrideMap) (k v : Str)
    (h : (objKeys o).Nodup) : (objKeys (objSet o k v)).Nodup := by
  rw [objKeys_objSet]
  split_ifs with hmem
  · exact h
  · simp [List.nodup_append, h, hmem]

theorem mem_objKeys_objSet (o : OverrideMap) (k v x : Str) :
    x ∈ objKeys (objSet o k v) ↔ x ∈ objKeys o ∨ x = k := by
  rw [objKeys_objSet]
  split_ifs with hmem
  · constructor
    · exact fun h => Or.inl h
    · intro h
      rcases h with h | h
      · exact h
      · exact h ▸ hmem
  · simp [List.mem_append]

theorem objKeys_uniqueMatchesOf_nodup (batch : List BatchMatch) :
    (objKeys (uniqueMatchesOf batch)).Nodup := by
  induction batch using List.reverseRecOn with
  | nil => simp [uniqueMatchesOf, objKeys]
  | append_singleton bs m ih =>
    rw [uniqueMatchesOf_append]
    split_ifs with hv
    · exact objKeys_nodup_objSet _ _ _ ih
    · exact ih

theorem mem_objKeys_uniqueMatchesOf (batch : List BatchMatch) (x : Str) :
    x ∈ objKeys (uniqueMatchesOf batch) ↔
      x ∈ (batch.filter validBatchMatch).map BatchMatch.accountingId := by
  induction batch using List.reverseRecOn with
  | nil => simp [uniqueMatchesOf, objKeys]
  | append_singleton bs m ih =>
    rw [uniqueMatchesOf_append]
    by_cases hv : validBatchMatch m = true
    · rw [if_pos hv, mem_objKeys_objSet]
      simp [List.filter_append, hv, ih]
    · rw [if_neg hv]
      simp [List.filter_append, hv, ih]

/-- C9: the batch override write de-duplicates by entry id keeping the
last occurrence; a lock timeout yields a structured failure leaving the
persisted map unchanged; on success the de-duplicated pairs are merged
into the persisted map in one write and the count is the number of
distinct (valid) entry ids; and the lock is never still held on return,
on any path. -/
theorem c9_resolve_batch (lockAvailable : Bool) (stored : OverrideMap)
    (batch : List BatchMatch) :
    (resolveConflictsBatch lockAvailable stored batch).lockHeld = false
    ∧ (¬ batch.isEmpty = true → ¬ (uniqueMatchesOf batch).isEmpty = true →
        lockAvailable = false →
        resolveConflictsBatch lockAvailable stored batch =
          ⟨false, 0, lockTimeoutMessage, stored, false⟩)
    ∧ (¬ batch.isEmpty = true → ¬ (uniqueMatchesOf batch).isEmpty = true →
        lockAvailable = true →
        resolveConflictsBatch lockAvailable stored batch =
          ⟨true, (uniqueMatchesOf batch).length, [],
            mergeOverrides stored (uniqueMatchesOf batch), false⟩)
    ∧ (∀ k, objLookup (uniqueMatchesOf batch) k =
        ((batch.filter (fun m => validBatchMatch m ∧ m.accountingId = k)).getLast?).map
          BatchMatch.bankId)
    ∧ (objKeys (uniqueMatchesOf batch)).Nodup
    ∧ (∀ x, x ∈ objKeys (uniqueMatchesOf batch) ↔
        x ∈ (batch.filter validBatchMatch).map BatchMatch.accountingId)
    ∧ (uniqueMatchesOf batch).length = (objKeys (uniqueMatchesOf batch)).length := by
  refine ⟨?_, ?_, ?_, objLookup_uniqueMatchesOf batch,
    objKeys_uniqueMatchesOf_nodup batch, mem_objKeys_uniqueMatchesOf batch,
    by simp [objKeys]⟩
  · unfold resolveConflictsBatch
    dsimp only
    split_ifs <;> rfl
  · intro h1 h2 h3
    have h1a : batch.isEmpty = false := by simpa using h1
    have h2a : (uniqueMatchesOf batch).isEmpty = false := by simpa using h2
    subst h3
    simp [resolveConflictsBatch, h1a, h2a]
  · intro h1 h2 h3
    have h1a : batch.isEmpty = false := by simpa using h1
    have h2a : (uniqueMatchesOf batch).isEmpty = false := by simpa using h2
    subst h3
    simp [resolveConflictsBatch, h1a, h2a]

/-- C9 witness: a concrete batch with a duplicated entry id and an invalid
pair — the lock-timeout path leaves the store unchanged, the success path
merges one de-duplicated pair, and the duplicated key maps to its last
bank id. -/
theorem c9_resolve_batch_witness :
    (resolveConflictsBatch false sampleStored sampleBatch).lockHeld = false
    ∧ resolveConflictsBatch false sampleStored sampleBatch =
        ⟨false, 0, lockTimeoutMessage, sampleStored, false⟩
    ∧ resolveConflictsBatch true sampleStored sampleBatch =
        ⟨true, (uniqueMatchesOf sampleBatch).length, [],
          mergeOverrides sampleStored (uniqueMatchesOf sampleBatch), false⟩
    ∧ objLookup (uniqueMatchesOf sampleBatch) "a".data = some "y".data :=
  ⟨(c9_resolve_batch false sampleStored sampleBatch).1,
   (c9_resolve_batch false sampleStored sampleBatch).2.1 (by decide) (by decide) rfl,
   (c9_resolve_batch true sampleStored sampleBatch).2.2.1 (by decide) (by decide) rfl,
   ((c9_resolve_batch true sampleStored sampleBatch).2.2.2.1 "a".data).trans (by decide)⟩
